import Mathlib

/- Shallow embedding of the streaming transcription client of
   emfcamp/camptions-client (src/whisper.py, with the parallel copy in
   src/nodemodules/whisper.py).  All wall-clock and segment times
   (datetime.now(), time.time(), segment start/end offsets) are modelled
   with Rat; every comparison and addition the claims depend on is exact
   at the values involved, so no floating-point rounding is lost.
   Python exceptions (IndexError, TypeError, KeyError) are modelled by
   returning none. -/

/-- One transcript hypothesis span `{text, start, end}` as delivered by the
server.  The end field is named `end_` because `end` is reserved in Lean. -/
structure Segment where
  text : String
  start : Rat
  end_ : Rat
deriving DecidableEq

/-- One entry put on the event queue by `Client.process_segments`
(`queue.put({"event": ..., "timestamp": ..., "text": ...})`).  The
isoformat timestamp string is modelled by the underlying instant
`client_start + seg["start"]`. -/
structure Event where
  event : String
  timestamp : Rat
  text : String
deriving DecidableEq

/-- A JSON value found under the `message` key of an inbound message:
either a number (WAIT estimates) or a string (ERROR/WARNING text,
"DISCONNECT", "SERVER_READY"). -/
inductive MsgVal where
  | num (q : Rat)
  | str (s : String)
deriving DecidableEq

/-- A line printed by `Client.handle_status_messages`; `waitEstimate`
records the already-rounded minutes value interpolated into the log
string. -/
inductive LogLine where
  | waitEstimate (minutes : Int)
  | serverMessage (v : MsgVal)
  | serverWarning (v : MsgVal)
deriving DecidableEq

/-- The mutable attributes of a `Client` instance (src/whisper.py,
`Client.__init__` plus the attributes first assigned in callbacks:
`server_backend` is only ever set by the SERVER_READY branch of
`on_message` and `error_message` only by `on_error`, so both are
`Option`). -/
structure ClientState where
  recording : Bool
  task : String
  uid : String
  waiting : Bool
  last_response_received : Option Rat
  disconnect_if_no_response_for : Rat
  language : Option String
  model : String
  server_error : Bool
  use_vad : Bool
  last_segment : Option Segment
  last_received_segment : Option String
  client_start : Rat
  server_backend : Option String
  error_message : Option String
  transcript : List Segment
deriving DecidableEq

/-- `Client.__init__`: the state of a freshly constructed client. -/
def clientInit (uid : String) (lang : Option String) (translate : Bool)
    (model : String) (use_vad : Bool) (client_start : Rat) : ClientState :=
  { recording := false
    task := if translate then "translate" else "transcribe"
    uid := uid
    waiting := false
    last_response_received := none
    disconnect_if_no_response_for := 15
    language := lang
    model := model
    server_error := false
    use_vad := use_vad
    last_segment := none
    last_received_segment := none
    client_start := client_start
    server_backend := none
    error_message := none
    transcript := [] }

/-- Python 3 `round(x)` on an exactly-representable value: round half to
even ("banker's rounding"). -/
def pythonRound (q : Rat) : Int :=
  let f := ⌊q⌋
  if q - (f : Rat) < 1 / 2 then f
  else if 1 / 2 < q - (f : Rat) then f + 1
  else if f % 2 = 0 then f else f + 1

/-- `Client.handle_status_messages(message_data)`.  `status` is the value
under the `status` key (its presence was checked by `on_message`);
`message` is the value under the `message` key if present.  A WAIT
message whose `message` value is missing or non-numeric raises
(KeyError / TypeError in `round`), modelled as `none`; ERROR/WARNING
with a missing `message` raise KeyError likewise. -/
def handle_status_messages (st : ClientState) (status : String)
    (message : Option MsgVal) : Option (ClientState × List LogLine) :=
  if status = "WAIT" then
    match message with
    | some (.num q) => some ({ st with waiting := true }, [.waitEstimate (pythonRound q)])
    | _ => none
  else if status = "ERROR" then
    match message with
    | some v => some ({ st with server_error := true }, [.serverMessage v])
    | none => none
  else if status = "WARNING" then
    match message with
    | some v => some (st, [.serverWarning v])
    | none => none
  else some (st, [])

/-- The finalization guard of `Client.process_segments`:
`not self.transcript or float(seg["start"]) >= float(self.transcript[-1]["end"])`. -/
def canFinalize (transcript : List Segment) (seg : Segment) : Bool :=
  match transcript.getLast? with
  | none => true
  | some l => decide (l.end_ ≤ seg.start)

/-- The loop-local and instance state threaded through the `for i, seg in
enumerate(segments)` loop of `process_segments`: the local `text` list,
and the instance fields and queued events the loop mutates. -/
structure LoopSt where
  text : List String
  last_segment : Option Segment
  transcript : List Segment
  events : List Event
deriving DecidableEq

/-- One iteration of the `process_segments` loop body for index `i` of a
batch of length `n`: adjacent-duplicate suppression via the local `text`
list, `last_segment` capture at the final index, and the
backend-plus-monotonicity finalization guard for every other surviving
segment.  The connection's `server_backend` attribute is only created by
the SERVER_READY branch of `on_message` (never in `__init__`), so when it
is still unset (`none`) the comparison
`self.server_backend == "faster_whisper"` raises AttributeError the
moment a surviving non-last segment reaches it: that raise is the `none`
result. -/
def segStep (n : Nat) (client_start : Rat) (backend : Option String)
    (i : Nat) (seg : Segment) (s : LoopSt) : Option LoopSt :=
  if s.text.getLast? ≠ some seg.text then
    if i = n - 1 then
      some { s with text := s.text ++ [seg.text], last_segment := some seg }
    else
      match backend with
      | none => none
      | some bk =>
        if bk = "faster_whisper" ∧ canFinalize s.transcript seg = true then
          some { s with text := s.text ++ [seg.text]
                        transcript := s.transcript ++ [seg]
                        events := s.events ++
                          [{ event := "segment"
                             timestamp := client_start + seg.start
                             text := seg.text }] }
        else some { s with text := s.text ++ [seg.text] }
  else some s

/-- The whole `for i, seg in enumerate(segments)` loop, starting at
index `i`; the `Option.bind` propagates an exception raised by an
iteration, abandoning the rest of the batch. -/
def segLoop (n : Nat) (client_start : Rat) (backend : Option String) :
    Nat → List Segment → LoopSt → Option LoopSt
  | _, [], s => some s
  | i, seg :: rest, s =>
    (segStep n client_start backend i seg s).bind
      (segLoop n client_start backend (i + 1) rest)

/-- The surviving texts after adjacent-duplicate suppression, i.e. the
value of the local `text` list after the loop has consumed the given
segments, starting from accumulator `acc`. -/
def dedupFold (acc : List String) : List Segment → List String
  | [] => acc
  | seg :: rest =>
    dedupFold (if acc.getLast? ≠ some seg.text then acc ++ [seg.text] else acc) rest

/-- The surviving texts of a batch (local `text` list at loop exit). -/
def dedupTexts (segs : List Segment) : List String := dedupFold [] segs

/-- `Client.process_segments(segments)`.  Returns the updated client
state and the events put on the queue, or `none` when the Python code
raises: the loop raises AttributeError when `server_backend` is unset
and a surviving non-last segment reaches the backend test; after the
loop, `segments[-1]` raises IndexError on an empty batch, and when
`self.last_segment` is still `None` the subscription
`self.last_segment["start"]` raises TypeError. -/
def process_segments (st : ClientState) (segments : List Segment) (now : Rat) :
    Option (ClientState × List Event) :=
  match segLoop segments.length st.client_start st.server_backend 0 segments
      { text := [], last_segment := st.last_segment,
        transcript := st.transcript, events := [] } with
  | none => none
  | some s =>
    match segments.getLast? with
    | none => none
    | some lastSeg =>
      let liveUpdate :=
        st.last_received_segment = none ∨
          st.last_received_segment ≠ some lastSeg.text
      let lrr := if liveUpdate then some now else st.last_response_received
      let lrs := if liveUpdate then some lastSeg.text else st.last_received_segment
      match s.last_segment with
      | none => none
      | some ls =>
        some ({ st with transcript := s.transcript
                        last_segment := s.last_segment
                        last_received_segment := lrs
                        last_response_received := lrr },
              s.events ++
                [{ event := "latest"
                   timestamp := st.client_start + ls.start
                   text := ls.text }])

/-- A parsed inbound JSON message as `Client.on_message` inspects it:
each field is `some` exactly when the corresponding key is present
(`message.get(...)` / `... in message.keys()`). -/
structure InboundMsg where
  uid : Option String
  status : Option String
  message : Option MsgVal
  backend : Option String
  language : Option String
  language_prob : Option Rat
  segments : Option (List Segment)
deriving DecidableEq

/-- An inbound message with no keys at all; concrete messages for the
theorems below are built from it by overriding fields. -/
def emptyMsg : InboundMsg :=
  { uid := none, status := none, message := none, backend := none,
    language := none, language_prob := none, segments := none }

/-- `Client.on_message(ws, message)` after `json.loads`: uid validation,
then status dispatch, then the DISCONNECT / SERVER_READY / language /
segments branches, in source order (DISCONNECT does not return, it falls
through).  The result is the updated client state and the events put on
the queue; `none` models an exception escaping the handler (a SERVER_READY
message without a `backend` key raises KeyError, a failing
`handle_status_messages` or `process_segments` propagates). -/
def on_message (st : ClientState) (msg : InboundMsg) (now : Rat) :
    Option (ClientState × List Event) :=
  if msg.uid ≠ some st.uid then some (st, [])
  else
    match msg.status with
    | some s => (handle_status_messages st s msg.message).map (fun p => (p.1, []))
    | none =>
      let st1 := if msg.message = some (.str "DISCONNECT")
                 then { st with recording := false } else st
      if msg.message = some (.str "SERVER_READY") then
        match msg.backend with
        | some b =>
          some ({ st1 with last_response_received := some now
                           recording := true
                           server_backend := some b }, [])
        | none => none
      else
        match msg.language with
        | some lang => some ({ st1 with language := some lang }, [])
        | none =>
          match msg.segments with
          | some segs => process_segments st1 segs now
          | none => some (st1, [])

/-- `Client.on_close`: the websocket closed; recording and waiting are
cleared.  A client in the spec's `Closed` state is one on which this has
run. -/
def on_close (st : ClientState) : ClientState :=
  { st with recording := false, waiting := false }

/-- `Client.on_error`: flag the server error and keep the message. -/
def on_error (st : ClientState) (e : String) : ClientState :=
  { st with server_error := true, error_message := some e }

/-- The underlying `websocket.send`: either succeeds or raises, chosen by
the `fails` flag standing for the socket's condition at that moment. -/
def rawSend (fails : Bool) : Except String Unit :=
  if fails then .error "send failed" else .ok ()

/-- `Client.send_packet_to_server`: `try: send ... except Exception as e:
print(e)`.  The exception is swallowed, so the function is total; its
result is the list of diagnostics printed. -/
def send_packet_to_server (fails : Bool) : List String :=
  match rawSend fails with
  | .ok _ => []
  | .error e => [e]

/-- The `for client in self.clients` loop of
`TranscriptionTeeClient.multicast_packet`, carrying the index used to
look up each client's send outcome in the `fails` oracle.  Position `k`
of the result records what happened to client `k`: `none` when the frame
was not sent to it, `some logs` when a send was attempted and `logs` was
printed. -/
def multicastFrom (fails : Nat → Bool) (unconditional : Bool) :
    List ClientState → Nat → List (Option (List String))
  | [], _ => []
  | c :: rest, i =>
    (if unconditional || c.recording
     then some (send_packet_to_server (fails i)) else none)
      :: multicastFrom fails unconditional rest (i + 1)

/-- `TranscriptionTeeClient.multicast_packet(packet, unconditional)`. -/
def multicast_packet (clients : List ClientState) (fails : Nat → Bool)
    (unconditional : Bool) : List (Option (List String)) :=
  multicastFrom fails unconditional clients 0

/-- Reinterpret a 16-bit little-endian pair as a signed int16, as
`np.frombuffer(dtype=np.int16)` does on a little-endian host. -/
def toInt16 (v : Nat) : Int :=
  if v % 65536 < 32768 then (v % 65536 : Int) else (v % 65536 : Int) - 65536

/-- `np.frombuffer(buffer=audio_bytes, dtype=np.int16)`: decode a byte
string (each element a byte value) into int16 samples, two bytes per
sample, little-endian; a buffer whose size is not a multiple of two
raises ValueError, modelled as `none`. -/
def bytesToSamples : List Nat → Option (List Int)
  | [] => some []
  | [_] => none
  | b0 :: b1 :: rest => (bytesToSamples rest).map (fun s => toInt16 (b0 + 256 * b1) :: s)

/-- `TranscriptionTeeClient.bytes_to_float_array(audio_bytes)`:
`np.frombuffer(...).astype(np.float32) / 32768.0`.  An int16 value is
exactly representable in binary32 and dividing by the power of two 32768
is exact there too, so the Rat result equals the float32 result. -/
def bytes_to_float_array (audio_bytes : List Nat) : Option (List Rat) :=
  (bytesToSamples audio_bytes).map (List.map (fun s : Int => (s : Rat) / 32768))

/-- The three flags of one client that the startup gate of
`TranscriptionTeeClient.__call__` reads, as visible at one instant. -/
structure ConnFlags where
  recording : Bool
  waiting : Bool
  server_error : Bool
deriving DecidableEq

/-- Outcome of the startup gate: the nested
`for client in self.clients: while not client.recording: ...` loop either
falls through (`ready`), or returns early after seeing waiting/server
error on the client at index `i` at poll instant `t` (`aborted`), or is
still polling when the fuel runs out (`outOfFuel`, standing for an
unfinished busy-wait). -/
inductive GateResult where
  | ready (tEnd : Nat)
  | aborted (i t : Nat)
  | outOfFuel
deriving DecidableEq

/-- The startup gate of `TranscriptionTeeClient.__call__` over `n`
clients.  The flags are a function of (client index, poll instant):
they are written concurrently by each client's websocket callbacks, so
the gate observes a possibly different value at each poll.  One poll
consumes one instant and one unit of fuel. -/
def runGate (flags : Nat → Nat → ConnFlags) (n : Nat) :
    Nat → Nat → Nat → GateResult
  | 0, i, t => if n ≤ i then .ready t else .outOfFuel
  | fuel + 1, i, t =>
    if n ≤ i then .ready t
    else if (flags i t).recording then runGate flags n fuel (i + 1) (t + 1)
    else if (flags i t).waiting || (flags i t).server_error then .aborted i t
    else runGate flags n fuel i (t + 1)

/-- What `TranscriptionTeeClient.__call__` (with `hls_url=None`) goes on
to do. -/
inductive SessionAction where
  | record
  | closeAllClients
deriving DecidableEq

/-- `TranscriptionTeeClient.__call__` with `hls_url=None`: run the gate,
then either `self.record()` or `self.close_all_clients()` followed by
`return`. -/
def sessionCall (flags : Nat → Nat → ConnFlags) (n fuel : Nat) :
    List SessionAction :=
  match runGate flags n fuel 0 0 with
  | .ready _ => [.record]
  | .aborted _ _ => [.closeAllClients]
  | .outOfFuel => []

/-- A freshly initialized client, used as a concrete state below. -/
def st0 : ClientState := clientInit "u" none false "small" true 0

/-- A ready client (a SERVER_READY message with the finalizing backend has
been handled). -/
def stReady : ClientState :=
  { st0 with recording := true, server_backend := some "faster_whisper",
             last_response_received := some 1 }

/-- A client connected to a non-finalizing backend. -/
def stOtherBackend : ClientState :=
  { st0 with recording := true, server_backend := some "whisper",
             last_response_received := some 1 }

/-- A batch whose final segment is an adjacent duplicate of the first. -/
def batchDupLast : List Segment :=
  [{ text := "a", start := 0, end_ := 1 }, { text := "a", start := 1, end_ := 2 }]

/-- A two-segment batch with distinct texts. -/
def batchHello : List Segment :=
  [{ text := "hello", start := 0, end_ := 1 }, { text := "world", start := 1, end_ := 2 }]

/-- Flag traces for two clients: client 0 reports recording from instant 1
on; client 1 is waiting (not yet recording) at instant 0 — i.e. during the
gate — and reports recording from instant 1 on (a WAIT followed by
SERVER_READY; the code never clears `waiting`). -/
def cFlags : Nat → Nat → ConnFlags
  | 0, 0 => { recording := false, waiting := false, server_error := false }
  | 0, _ => { recording := true, waiting := false, server_error := false }
  | _, 0 => { recording := false, waiting := true, server_error := false }
  | _, _ => { recording := true, waiting := true, server_error := false }

/-- A single client that is waiting from the start. -/
def aFlags : Nat → Nat → ConnFlags
  | _, _ => { recording := false, waiting := true, server_error := false }

/-- An inbound message carrying a uid different from st0's. -/
def msgWrongUid : InboundMsg :=
  { emptyMsg with uid := some "x", status := some "ERROR",
                  message := some (.str "boom") }

/-- A mid-batch loop state: one surviving text, empty transcript. -/
def loopQ : LoopSt :=
  { text := ["q"], last_segment := none, transcript := [], events := [] }

/-- A concrete candidate segment. -/

def segW : Segment := { text := "w", start := 5, end_ := 6 }
theorem segStep_skip (n : Nat) (cs : Rat) (b : Option String) (i : Nat)
    (seg : Segment) (s : LoopSt) (h : s.text.getLast? = some seg.text) :
    segStep n cs b i seg s = some s := by
  unfold segStep
  rw [if_neg (not_not_intro h)]

theorem segStep_last (n : Nat) (cs : Rat) (b : Option String) (i : Nat)
    (seg : Segment) (s : LoopSt) (h : s.text.getLast? ≠ some seg.text)
    (hi : i = n - 1) :
    segStep n cs b i seg s =
      some { s with text := s.text ++ [seg.text], last_segment := some seg } := by
  unfold segStep
  rw [if_pos h, if_pos hi]

theorem segStep_raise (n : Nat) (cs : Rat) (i : Nat)
    (seg : Segment) (s : LoopSt) (h : s.text.getLast? ≠ some seg.text)
    (hi : i ≠ n - 1) :
    segStep n cs none i seg s = none := by
  unfold segStep
  rw [if_pos h, if_neg hi]

theorem segStep_mid_fin (n : Nat) (cs : Rat) (bk : String) (i : Nat)
    (seg : Segment) (s : LoopSt) (h : s.text.getLast? ≠ some seg.text)
    (hi : i ≠ n - 1)
    (hc : bk = "faster_whisper" ∧ canFinalize s.transcript seg = true) :
    segStep n cs (some bk) i seg s =
      some { s with text := s.text ++ [seg.text]
                    transcript := s.transcript ++ [seg]
                    events := s.events ++
                      [{ event := "segment", timestamp := cs + seg.start,
                         text := seg.text }] } := by
  unfold segStep
  rw [if_pos h, if_neg hi]
  exact if_pos hc

theorem segStep_mid_skip (n : Nat) (cs : Rat) (bk : String) (i : Nat)
    (seg : Segment) (s : LoopSt) (h : s.text.getLast? ≠ some seg.text)
    (hi : i ≠ n - 1)
    (hc : ¬(bk = "faster_whisper" ∧ canFinalize s.transcript seg = true)) :
    segStep n cs (some bk) i seg s = some { s with text := s.text ++ [seg.text] } := by
  unfold segStep
  rw [if_pos h, if_neg hi]
  exact if_neg hc

theorem segStep_some_of_backend (n : Nat) (cs : Rat) (bk : String) (i : Nat)
    (seg : Segment) (s : LoopSt) :
    ∃ s2, segStep n cs (some bk) i seg s = some s2 := by
  by_cases h : s.text.getLast? ≠ some seg.text
  · by_cases hi : i = n - 1
    · exact ⟨_, segStep_last n cs (some bk) i seg s h hi⟩
    · by_cases hc : bk = "faster_whisper" ∧ canFinalize s.transcript seg = true
      · exact ⟨_, segStep_mid_fin n cs bk i seg s h hi hc⟩
      · exact ⟨_, segStep_mid_skip n cs bk i seg s h hi hc⟩
  · exact ⟨s, segStep_skip n cs (some bk) i seg s (not_not.mp h)⟩

theorem segStep_text (n : Nat) (cs : Rat) (b : Option String) (i : Nat)
    (seg : Segment) (s s2 : LoopSt) (h : segStep n cs b i seg s = some s2) :
    s2.text =
      if s.text.getLast? ≠ some seg.text then s.text ++ [seg.text] else s.text := by
  by_cases hs : s.text.getLast? ≠ some seg.text
  · rw [if_pos hs]
    by_cases hi : i = n - 1
    · rw [segStep_last n cs b i seg s hs hi] at h
      cases h
      rfl
    · cases b with
      | none =>
        rw [segStep_raise n cs i seg s hs hi] at h
        cases h
      | some bk =>
        by_cases hc : bk = "faster_whisper" ∧ canFinalize s.transcript seg = true
        · rw [segStep_mid_fin n cs bk i seg s hs hi hc] at h
          cases h
          rfl
        · rw [segStep_mid_skip n cs bk i seg s hs hi hc] at h
          cases h
          rfl
  · rw [if_neg hs]
    rw [segStep_skip n cs b i seg s (not_not.mp hs)] at h
    cases h
    rfl

theorem segLoop_nil (n : Nat) (cs : Rat) (b : Option String) (i : Nat)
    (s : LoopSt) : segLoop n cs b i [] s = some s := rfl

theorem segLoop_cons (n : Nat) (cs : Rat) (b : Option String) (i : Nat)
    (seg : Segment) (rest : List Segment) (s : LoopSt) :
    segLoop n cs b i (seg :: rest) s =
      (segStep n cs b i seg s).bind (segLoop n cs b (i + 1) rest) := rfl

theorem segLoop_concat_some (n : Nat) (cs : Rat) (b : Option String) :
    ∀ (xs : List Segment) (y : Segment) (i : Nat) (s s1 : LoopSt),
      segLoop n cs b i xs s = some s1 →
      segLoop n cs b i (xs ++ [y]) s = segStep n cs b (i + xs.length) y s1
  | [], y, i, s, s1, h => by
    cases h
    rw [List.nil_append, segLoop_cons]
    simp only [List.length_nil, Nat.add_zero]
    cases hstep : segStep n cs b i y s with
    | none => rw [Option.none_bind]
    | some s2 =>
      rw [Option.some_bind]
      rfl
  | x :: xs, y, i, s, s1, h => by
    rw [segLoop_cons] at h
    cases hstep : segStep n cs b i x s with
    | none =>
      rw [hstep, Option.none_bind] at h
      cases h
    | some s2 =>
      rw [hstep, Option.some_bind] at h
      rw [List.cons_append, segLoop_cons, hstep, Option.some_bind,
        segLoop_concat_some n cs b xs y (i + 1) s2 s1 h]
      congr 1
      simp only [List.length_cons]
      omega

theorem segLoop_some_of_backend (n : Nat) (cs : Rat) (bk : String) :
    ∀ (xs : List Segment) (i : Nat) (s : LoopSt),
      ∃ s1, segLoop n cs (some bk) i xs s = some s1
  | [], i, s => ⟨s, rfl⟩
  | x :: xs, i, s => by
    obtain ⟨s2, h2⟩ := segStep_some_of_backend n cs bk i x s
    obtain ⟨s1, h1⟩ := segLoop_some_of_backend n cs bk xs (i + 1) s2
    exact ⟨s1, by rw [segLoop_cons, h2, Option.some_bind, h1]⟩

theorem segLoop_text (n : Nat) (cs : Rat) (b : Option String) :
    ∀ (xs : List Segment) (i : Nat) (s s1 : LoopSt),
      segLoop n cs b i xs s = some s1 → s1.text = dedupFold s.text xs
  | [], i, s, s1, h => by
    cases h
    rfl
  | x :: xs, i, s, s1, h => by
    rw [segLoop_cons] at h
    cases hstep : segStep n cs b i x s with
    | none =>
      rw [hstep, Option.none_bind] at h
      cases h
    | some s2 =>
      rw [hstep, Option.some_bind] at h
      rw [dedupFold, ← segStep_text n cs b i x s s2 hstep]
      exact segLoop_text n cs b xs (i + 1) s2 s1 h

theorem segStep_events (n : Nat) (cs : Rat) (b : Option String) (i : Nat)
    (seg : Segment) (s s2 : LoopSt) (h : segStep n cs b i seg s = some s2) :
    ∀ e ∈ s2.events, e ∈ s.events ∨ e.event = "segment" := by
  intro e he
  by_cases hs : s.text.getLast? ≠ some seg.text
  · by_cases hi : i = n - 1
    · rw [segStep_last n cs b i seg s hs hi] at h
      cases h
      exact Or.inl he
    · cases b with
      | none =>
        rw [segStep_raise n cs i seg s hs hi] at h
        cases h
      | some bk =>
        by_cases hc : bk = "faster_whisper" ∧ canFinalize s.transcript seg = true
        · rw [segStep_mid_fin n cs bk i seg s hs hi hc] at h
          cases h
          rcases List.mem_append.mp he with h1 | h1
          · exact Or.inl h1
          · rcases List.mem_singleton.mp h1 with rfl
            exact Or.inr rfl
        · rw [segStep_mid_skip n cs bk i seg s hs hi hc] at h
          cases h
          exact Or.inl he
  · rw [segStep_skip n cs b i seg s (not_not.mp hs)] at h
    cases h
    exact Or.inl he

theorem segLoop_events (n : Nat) (cs : Rat) (b : Option String) :
    ∀ (xs : List Segment) (i : Nat) (s s1 : LoopSt),
      segLoop n cs b i xs s = some s1 →
      ∀ e ∈ s1.events, e ∈ s.events ∨ e.event = "segment"
  | [], i, s, s1, h, e, he => by
    cases h
    exact Or.inl he
  | x :: xs, i, s, s1, h, e, he => by
    rw [segLoop_cons] at h
    cases hstep : segStep n cs b i x s with
    | none =>
      rw [hstep, Option.none_bind] at h
      cases h
    | some s2 =>
      rw [hstep, Option.some_bind] at h
      rcases segLoop_events n cs b xs (i + 1) s2 s1 h e he with h1 | h1
      · exact segStep_events n cs b i x s s2 hstep e h1
      · exact Or.inr h1

theorem canFinalize_spec (t : List Segment) (seg : Segment)
    (h : canFinalize t seg = true) :
    ∀ l, t.getLast? = some l → l.end_ ≤ seg.start := by
  intro l hl
  unfold canFinalize at h
  rw [hl] at h
  exact of_decide_eq_true h

theorem segStep_chain (n : Nat) (cs : Rat) (b : Option String) (i : Nat)
    (seg : Segment) (s s2 : LoopSt) (h : segStep n cs b i seg s = some s2)
    (hch : List.Chain' (fun a b => a.end_ ≤ b.start) s.transcript) :
    List.Chain' (fun a b => a.end_ ≤ b.start) s2.transcript := by
  by_cases hs : s.text.getLast? ≠ some seg.text
  · by_cases hi : i = n - 1
    · rw [segStep_last n cs b i seg s hs hi] at h
      cases h
      exact hch
    · cases b with
      | none =>
        rw [segStep_raise n cs i seg s hs hi] at h
        cases h
      | some bk =>
        by_cases hc : bk = "faster_whisper" ∧ canFinalize s.transcript seg = true
        · rw [segStep_mid_fin n cs bk i seg s hs hi hc] at h
          cases h
          rw [List.chain'_append]
          refine ⟨hch, List.chain'_singleton seg, ?_⟩
          intro x hx y hy
          simp only [List.head?_cons, Option.mem_def, Option.some.injEq] at hy
          subst hy
          exact canFinalize_spec s.transcript seg hc.2 x hx
        · rw [segStep_mid_skip n cs bk i seg s hs hi hc] at h
          cases h
          exact hch
  · rw [segStep_skip n cs b i seg s (not_not.mp hs)] at h
    cases h
    exact hch

theorem segLoop_chain (n : Nat) (cs : Rat) (b : Option String) :
    ∀ (xs : List Segment) (i : Nat) (s s1 : LoopSt),
      segLoop n cs b i xs s = some s1 →
      List.Chain' (fun a b => a.end_ ≤ b.start) s.transcript →
      List.Chain' (fun a b => a.end_ ≤ b.start) s1.transcript
  | [], i, s, s1, h, hch => by
    cases h
    exact hch
  | x :: xs, i, s, s1, h, hch => by
    rw [segLoop_cons] at h
    cases hstep : segStep n cs b i x s with
    | none =>
      rw [hstep, Option.none_bind] at h
      cases h
    | some s2 =>
      rw [hstep, Option.some_bind] at h
      exact segLoop_chain n cs b xs (i + 1) s2 s1 h
        (segStep_chain n cs b i x s s2 hstep hch)

theorem process_segments_transcript (st : ClientState) (segs : List Segment)
    (now : Rat) (st2 : ClientState) (evs : List Event)
    (h : process_segments st segs now = some (st2, evs)) :
    ∃ s, segLoop segs.length st.client_start st.server_backend 0 segs
        { text := [], last_segment := st.last_segment,
          transcript := st.transcript, events := [] } = some s ∧
      st2.transcript = s.transcript := by
  unfold process_segments at h
  split at h
  · exact absurd h (by simp)
  · rename_i s hs
    split at h
    · exact absurd h (by simp)
    · dsimp only at h
      split at h
      · exact absurd h (by simp)
      · simp only [Option.some.injEq, Prod.mk.injEq] at h
        exact ⟨s, hs, by rw [← h.1]⟩


theorem multicastFrom_getElem? (fails : Nat → Bool) (u : Bool) :
    ∀ (clients : List ClientState) (i k : Nat),
      (multicastFrom fails u clients i)[k]? =
        clients[k]?.map (fun c =>
          if u || c.recording then some (send_packet_to_server (fails (i + k)))
          else none)
  | [], i, k => by simp [multicastFrom]
  | c :: rest, i, 0 => by simp [multicastFrom]
  | c :: rest, i, k + 1 => by
    simp only [multicastFrom, List.getElem?_cons_succ]
    rw [multicastFrom_getElem? fails u rest (i + 1) k]
    have harith : i + 1 + k = i + (k + 1) := by omega
    rw [harith]

theorem multicastFrom_attempted (fails : Nat → Bool) (u : Bool) :
    ∀ (clients : List ClientState) (i : Nat),
      (multicastFrom fails u clients i).map Option.isSome =
        clients.map (fun c => u || c.recording)
  | [], _ => rfl
  | c :: rest, i => by
    simp only [multicastFrom, List.map_cons]
    rw [multicastFrom_attempted fails u rest (i + 1)]
    congr 1
    cases h : u || c.recording <;> simp [h]

theorem runGate_ready_le (flags : Nat → Nat → ConnFlags) (n : Nat) :
    ∀ (fuel i t tEnd : Nat), runGate flags n fuel i t = .ready tEnd → t ≤ tEnd := by
  intro fuel
  induction fuel with
  | zero =>
    intro i t tEnd h
    unfold runGate at h
    split at h
    · cases h
      exact le_refl _
    · exact absurd h (by simp)
  | succ fuel ih =>
    intro i t tEnd h
    unfold runGate at h
    split at h
    · cases h
      exact le_refl _
    · split at h
      · exact le_trans (by omega) (ih (i + 1) (t + 1) tEnd h)
      · split at h
        · exact absurd h (by simp)
        · exact le_trans (by omega) (ih i (t + 1) tEnd h)


theorem runGate_ready_covers (flags : Nat → Nat → ConnFlags) (n : Nat) :
    ∀ (fuel i t tEnd : Nat), runGate flags n fuel i t = .ready tEnd →
      ∀ j, i ≤ j → j < n → ∃ u, t ≤ u ∧ u ≤ tEnd ∧ (flags j u).recording = true := by
  intro fuel
  induction fuel with
  | zero =>
    intro i t tEnd h j hij hjn
    unfold runGate at h
    split at h
    · omega
    · exact absurd h (by simp)
  | succ fuel ih =>
    intro i t tEnd h j hij hjn
    unfold runGate at h
    split at h
    · omega
    · split at h
      · by_cases hj : j = i
        · subst hj
          refine ⟨t, le_refl t, ?_, by assumption⟩
          exact le_trans (by omega) (runGate_ready_le flags n fuel _ _ tEnd h)
        · obtain ⟨u, hu1, hu2, hu3⟩ := ih (i + 1) (t + 1) tEnd h j (by omega) hjn
          exact ⟨u, by omega, hu2, hu3⟩
      · split at h
        · exact absurd h (by simp)
        · obtain ⟨u, hu1, hu2, hu3⟩ := ih i (t + 1) tEnd h j hij hjn
          exact ⟨u, by omega, hu2, hu3⟩

theorem runGate_aborted_inv (flags : Nat → Nat → ConnFlags) (n : Nat) :
    ∀ (fuel i t j u : Nat), runGate flags n fuel i t = .aborted j u →
      j < n ∧ (flags j u).recording = false ∧
        ((flags j u).waiting = true ∨ (flags j u).server_error = true) := by
  intro fuel
  induction fuel with
  | zero =>
    intro i t j u h
    unfold runGate at h
    split at h
    · exact absurd h (by simp)
    · exact absurd h (by simp)
  | succ fuel ih =>
    intro i t j u h
    unfold runGate at h
    split at h
    · exact absurd h (by simp)
    · rename_i hn
      split at h
      · exact ih (i + 1) (t + 1) j u h
      · split at h
        · rename_i hrec hwait
          cases h
          refine ⟨by omega, by simpa using hrec, ?_⟩
          simpa [Bool.or_eq_true] using hwait
        · exact ih i (t + 1) j u h

theorem toInt16_bounds (v : Nat) : -32768 ≤ toInt16 v ∧ toInt16 v ≤ 32767 := by
  unfold toInt16
  split
  · constructor <;> omega
  · constructor <;> omega

theorem bytesToSamples_bounds :
    ∀ (bytes : List Nat) (samples : List Int),
      bytesToSamples bytes = some samples →
      ∀ s ∈ samples, -32768 ≤ s ∧ s ≤ 32767
  | [], samples, h, s, hs => by
    simp only [bytesToSamples, Option.some.injEq] at h
    subst h
    cases hs
  | [b], samples, h, s, hs => by
    unfold bytesToSamples at h
    cases h
  | b0 :: b1 :: rest, samples, h, s, hs => by
    simp only [bytesToSamples] at h
    cases hr : bytesToSamples rest with
    | none => rw [hr] at h; simp at h
    | some tail =>
      rw [hr] at h
      simp only [Option.map_some', Option.some.injEq] at h
      subst h
      rcases List.mem_cons.mp hs with rfl | htail
      · exact toInt16_bounds (b0 + 256 * b1)
      · exact bytesToSamples_bounds rest tail hr s htail

/-- C10: `Client.process_segments` is only defined for non-empty batches:
called with an empty batch it evaluates `segments[-1]`, raises, and no
event is emitted (the loop over an empty batch is a no-op returning its
input state unchanged, so it queues nothing either), so batch
non-emptiness is a precondition for the reconciler's behaviour. -/
theorem c10_process_segments_empty_batch_raises :
    ∀ (st : ClientState) (now : Rat),
      process_segments st [] now = none ∧
      ∀ (n : Nat) (cs : Rat) (b : Option String) (i : Nat) (s : LoopSt),
        segLoop n cs b i [] s = some s :=
  fun _ _ => ⟨rfl, fun _ _ _ _ _ => rfl⟩

/-- C6: an inbound message whose uid does not equal the connection's uid
leaves the whole client state unchanged and puts no event on the queue. -/
theorem c6_on_message_uid_mismatch (st : ClientState) (msg : InboundMsg)
    (now : Rat) (h : msg.uid ≠ some st.uid) :
    on_message st msg now = some (st, []) := by
  unfold on_message
  rw [if_pos h]

theorem c6_witness :
    msgWrongUid.uid ≠ some st0.uid ∧
    on_message st0 msgWrongUid 3 = some (st0, []) :=
  ⟨by decide, c6_on_message_uid_mismatch st0 msgWrongUid 3 (by decide)⟩

/-- C3 counterexample: handling a WAIT status with message 2.5 does set
waiting, but the logged estimated wait is 2 — Python's `round` rounds
half to even — not 3 as the claim states. -/
theorem c3_counterexample :
    handle_status_messages st0 "WAIT" (some (.num (5 / 2)))
      = some ({ st0 with waiting := true }, [.waitEstimate 2]) ∧
    ([LogLine.waitEstimate 2] : List LogLine) ≠ [LogLine.waitEstimate 3] := by
  constructor
  · unfold handle_status_messages pythonRound
    norm_num
  · decide

/-- C3 amended: a WAIT status with message 2.5 makes the connection enter
the Waiting state, and the logged estimated wait time is 2.5 rounded to
2 (Python's round-half-to-even). -/
theorem c3_amended_wait_status (st : ClientState) :
    handle_status_messages st "WAIT" (some (.num (5 / 2)))
      = some ({ st with waiting := true }, [.waitEstimate 2]) := by
  unfold handle_status_messages pythonRound
  norm_num

/-- C9: a byte string decodable as int16 PCM samples maps to a same-length
sequence whose entries are each sample divided by 32768, all within
[-1, 1] (int16 / 32768 is exact in binary32, so the Rat model is the
float32 result). -/
theorem c9_bytes_to_float_array_spec :
    ∀ (audio_bytes : List Nat) (samples : List Int),
      bytesToSamples audio_bytes = some samples →
      bytes_to_float_array audio_bytes
          = some (samples.map (fun s : Int => (s : Rat) / 32768)) ∧
      (samples.map (fun s : Int => (s : Rat) / 32768)).length = samples.length ∧
      ∀ x ∈ samples.map (fun s : Int => (s : Rat) / 32768), -1 ≤ x ∧ x ≤ 1 := by
  intro audio_bytes samples h
  refine ⟨?_, by simp, ?_⟩
  · unfold bytes_to_float_array
    rw [h]
    rfl
  · intro x hx
    rcases List.mem_map.mp hx with ⟨s, hs, rfl⟩
    obtain ⟨h1, h2⟩ := bytesToSamples_bounds audio_bytes samples h s hs
    have hc1 : (-32768 : Rat) ≤ (s : Rat) := by exact_mod_cast h1
    have hc2 : (s : Rat) ≤ 32767 := by exact_mod_cast h2
    have h32 : (0 : Rat) < 32768 := by norm_num
    constructor
    · rw [le_div_iff₀ h32]
      linarith
    · rw [div_le_iff₀ h32]
      linarith

theorem c9_witness :
    bytesToSamples [0, 128, 255, 127] = some [-32768, 32767] ∧
    (bytes_to_float_array [0, 128, 255, 127]
        = some (([-32768, 32767] : List Int).map (fun s : Int => (s : Rat) / 32768)) ∧
      (([-32768, 32767] : List Int).map (fun s : Int => (s : Rat) / 32768)).length
        = ([-32768, 32767] : List Int).length ∧
      ∀ x ∈ ([-32768, 32767] : List Int).map (fun s : Int => (s : Rat) / 32768),
        -1 ≤ x ∧ x ≤ 1) :=
  ⟨by decide, c9_bytes_to_float_array_spec [0, 128, 255, 127] [-32768, 32767] (by decide)⟩

/-- C4: `multicast_packet` sends the frame to client `k` iff
`unconditional` is set or the client is recording (the `Ready` state);
a client on which `on_close` has run (the `Closed` state) has
`recording = false` and so never receives a frame from a normal
(state-gated) multicast. -/
theorem c4_multicast_iff (clients : List ClientState) (fails : Nat → Bool)
    (u : Bool) (k : Nat) (c : ClientState) (hk : clients[k]? = some c) :
    ((multicast_packet clients fails u)[k]?
        = some (some (send_packet_to_server (fails k))) ↔ (u || c.recording) = true) ∧
    ((multicast_packet clients fails u)[k]? = some none ↔ (u || c.recording) = false) ∧
    (∀ st, c = on_close st → u = false →
      (multicast_packet clients fails u)[k]? = some none) := by
  unfold multicast_packet
  rw [multicastFrom_getElem? fails u clients 0 k, hk]
  simp only [Nat.zero_add, Option.map_some']
  refine ⟨?_, ?_, ?_⟩
  · cases hrec : u || c.recording <;> simp
  · cases hrec : u || c.recording <;> simp
  · rintro st rfl rfl
    simp [on_close]

theorem c4_witness :
    (([stReady, on_close stReady] : List ClientState)[1]? = some (on_close stReady)) ∧
    (((multicast_packet [stReady, on_close stReady] (fun _ => false) false)[1]?
        = some (some (send_packet_to_server false))
        ↔ (false || (on_close stReady).recording) = true) ∧
     ((multicast_packet [stReady, on_close stReady] (fun _ => false) false)[1]?
        = some none ↔ (false || (on_close stReady).recording) = false) ∧
     (∀ st, on_close stReady = on_close st → false = false →
       (multicast_packet [stReady, on_close stReady] (fun _ => false) false)[1]?
         = some none)) :=
  ⟨rfl, c4_multicast_iff [stReady, on_close stReady] (fun _ => false) false 1
    (on_close stReady) rfl⟩

/-- C8: which clients a multicast attempts to send to depends only on the
unconditional flag and each client's recording flag — never on which
sends fail — and each eligible client's send is attempted no matter what
the failure pattern is; `send_packet_to_server` swallows the exception
(it returns the printed diagnostics), so `multicast_packet` itself is
total and never raises. -/
theorem c8_multicast_failure_isolation (clients : List ClientState)
    (fails : Nat → Bool) (u : Bool) :
    (multicast_packet clients fails u).map Option.isSome
        = (multicast_packet clients (fun _ => false) u).map Option.isSome ∧
    ∀ k c, clients[k]? = some c → (u || c.recording) = true →
      (multicast_packet clients fails u)[k]?
        = some (some (send_packet_to_server (fails k))) := by
  constructor
  · unfold multicast_packet
    rw [multicastFrom_attempted, multicastFrom_attempted]
  · intro k c hk hrec
    unfold multicast_packet
    rw [multicastFrom_getElem? fails u clients 0 k, hk]
    simp only [Nat.zero_add, Option.map_some']
    rw [hrec]
    simp

theorem c8_witness :
    (([stReady] : List ClientState)[0]? = some stReady
      ∧ (false || stReady.recording) = true) ∧
    (multicast_packet [stReady] (fun _ => true) false)[0]?
      = some (some (send_packet_to_server true)) :=
  ⟨⟨rfl, by decide⟩,
    (c8_multicast_failure_isolation [stReady] (fun _ => true) false).2 0 stReady
      rfl (by decide)⟩

/-- C2: the transcript buffer invariant — adjacent finalized segments
satisfy `buffer[i].end <= buffer[i+1].start` — holds for a freshly
constructed client, is preserved by the reconciliation loop run from any
starting state (so it holds of every partial program state the loop
reaches, including the state left behind when a later iteration or the
epilogue raises, since each such state is the loop's result on the
prefix processed so far), and is preserved by every completed
`process_segments` call, whose appends are guarded by
`start >= buffer.last.end` (or an empty buffer). -/
theorem c2_transcript_invariant :
    (∀ uid lang translate model use_vad cs,
      List.Chain' (fun a b => a.end_ ≤ b.start)
        (clientInit uid lang translate model use_vad cs).transcript) ∧
    (∀ (n : Nat) (cs : Rat) (b : Option String) (xs : List Segment) (i : Nat)
        (s : LoopSt),
      List.Chain' (fun a b => a.end_ ≤ b.start) s.transcript →
      ∀ s1, segLoop n cs b i xs s = some s1 →
        List.Chain' (fun a b => a.end_ ≤ b.start) s1.transcript) ∧
    (∀ (st : ClientState) (segs : List Segment) (now : Rat),
      List.Chain' (fun a b => a.end_ ≤ b.start) st.transcript →
      ∀ st2 evs, process_segments st segs now = some (st2, evs) →
        List.Chain' (fun a b => a.end_ ≤ b.start) st2.transcript) := by
  refine ⟨?_, ?_, ?_⟩
  · intro uid lang translate model use_vad cs
    exact List.chain'_nil
  · intro n cs b xs i s hch s1 h
    exact segLoop_chain n cs b xs i s s1 h hch
  · intro st segs now hch st2 evs h
    obtain ⟨s, hs, hts⟩ := process_segments_transcript st segs now st2 evs h
    rw [hts]
    exact segLoop_chain _ _ _ segs 0 _ s hs hch

theorem c2_witness :
    List.Chain' (fun a b : Segment => a.end_ ≤ b.start) stReady.transcript ∧
    (∀ st2 evs, process_segments stReady batchHello 9 = some (st2, evs) →
      List.Chain' (fun a b : Segment => a.end_ ≤ b.start) st2.transcript) :=
  ⟨by simp [stReady, st0, clientInit],
    c2_transcript_invariant.2.2 stReady batchHello 9
      (by simp [stReady, st0, clientInit])⟩

/-- C5: inside the reconciliation loop, on a connection whose
`server_backend` attribute exists, a non-last surviving segment is
appended to the transcript and emitted as a `segment` event iff that
backend is the finalizing "faster_whisper" AND its start is at or after
the buffer's last end (or the buffer is empty); a candidate failing the
test leaves the transcript and event queue unchanged — it is discarded,
and the loop never revisits it.  When the attribute is still unset the
same candidate position instead raises AttributeError (the `none`
conjunct). -/
theorem c5_finalization_rule (n : Nat) (cs : Rat) (bk : String)
    (i : Nat) (seg : Segment) (s : LoopSt)
    (hi : i ≠ n - 1) (hsurv : s.text.getLast? ≠ some seg.text) :
    (∃ s2, segStep n cs (some bk) i seg s = some s2 ∧
      ((s2.transcript = s.transcript ++ [seg] ∧
        s2.events = s.events ++
          [{ event := "segment", timestamp := cs + seg.start, text := seg.text }])
        ↔ (bk = "faster_whisper" ∧ canFinalize s.transcript seg = true)) ∧
      (¬(bk = "faster_whisper" ∧ canFinalize s.transcript seg = true) →
        s2.transcript = s.transcript ∧ s2.events = s.events)) ∧
    segStep n cs none i seg s = none := by
  refine ⟨?_, segStep_raise n cs i seg s hsurv hi⟩
  by_cases hc : bk = "faster_whisper" ∧ canFinalize s.transcript seg = true
  · exact ⟨_, segStep_mid_fin n cs bk i seg s hsurv hi hc,
      iff_of_true ⟨rfl, rfl⟩ hc, fun h => absurd hc h⟩
  · refine ⟨_, segStep_mid_skip n cs bk i seg s hsurv hi hc, ?_,
      fun _ => ⟨rfl, rfl⟩⟩
    constructor
    · rintro ⟨h1, h2⟩
      have := congrArg List.length h1
      simp at this
    · intro h
      exact absurd h hc

theorem c5_witness :
    ((0 : Nat) ≠ 3 - 1 ∧ loopQ.text.getLast? ≠ some segW.text) ∧
    ((∃ s2, segStep 3 0 (some "faster_whisper") 0 segW loopQ = some s2 ∧
        ((s2.transcript = loopQ.transcript ++ [segW] ∧
          s2.events = loopQ.events ++
            [{ event := "segment", timestamp := (0 : Rat) + segW.start,
               text := segW.text }])
          ↔ ("faster_whisper" = "faster_whisper" ∧
              canFinalize loopQ.transcript segW = true)) ∧
        (¬("faster_whisper" = "faster_whisper" ∧
            canFinalize loopQ.transcript segW = true) →
          s2.transcript = loopQ.transcript ∧ s2.events = loopQ.events)) ∧
      segStep 3 0 none 0 segW loopQ = none) :=
  ⟨⟨by decide, by decide⟩,
    c5_finalization_rule 3 0 "faster_whisper" 0 segW loopQ
      (by decide) (by decide)⟩

/-- C7 counterexample: two clients; during the gate (which runs from
instant 0 and completes at instant 3) client 1 is not yet ready and has
waiting set at instant 0 while the gate is busy polling client 0 — yet
the gate completes and the session records instead of closing all
clients, because the abort test is only applied to the client currently
being polled, at the instant it is polled. -/
theorem c7_counterexample :
    (cFlags 1 0).recording = false ∧ (cFlags 1 0).waiting = true ∧
    runGate cFlags 2 10 0 0 = .ready 3 ∧
    sessionCall cFlags 2 10 = [SessionAction.record] ∧
    sessionCall cFlags 2 10 ≠ [SessionAction.closeAllClients] :=
  ⟨rfl, rfl, by decide, by decide, by decide⟩

/-- C7 amended: steady-state recording begins only after the gate has
observed every configured client with recording set; and when the gate's
poll of a not-yet-ready client observes waiting or server_error set, the
session closes all clients' websockets and returns without ever starting
to record.  (A transient waiting/error flag on a client the gate is not
currently polling does not abort the session, as the counterexample
shows.) -/
theorem c7_startup_gate (flags : Nat → Nat → ConnFlags) (n fuel : Nat) :
    (∀ tEnd, runGate flags n fuel 0 0 = .ready tEnd →
      sessionCall flags n fuel = [SessionAction.record] ∧
      ∀ i, i < n → ∃ t, t ≤ tEnd ∧ (flags i t).recording = true) ∧
    (∀ i t, runGate flags n fuel 0 0 = .aborted i t →
      sessionCall flags n fuel = [SessionAction.closeAllClients] ∧
      i < n ∧ (flags i t).recording = false ∧
      ((flags i t).waiting = true ∨ (flags i t).server_error = true)) := by
  constructor
  · intro tEnd h
    constructor
    · unfold sessionCall
      rw [h]
    · intro i hi
      obtain ⟨u, _, hu2, hu3⟩ :=
        runGate_ready_covers flags n fuel 0 0 tEnd h i (Nat.zero_le i) hi
      exact ⟨u, hu2, hu3⟩
  · intro i t h
    refine ⟨?_, runGate_aborted_inv flags n fuel 0 0 i t h⟩
    unfold sessionCall
    rw [h]

theorem c7_witness :
    runGate aFlags 1 5 0 0 = .aborted 0 0 ∧
    (sessionCall aFlags 1 5 = [SessionAction.closeAllClients] ∧
     0 < 1 ∧ (aFlags 0 0).recording = false ∧
     ((aFlags 0 0).waiting = true ∨ (aFlags 0 0).server_error = true)) :=
  ⟨by decide, (c7_startup_gate aFlags 1 5).2 0 0 (by decide)⟩

/-- C1 counterexample: two concrete non-empty batches for which no
`latest` event is put on the queue at all.  First, the first-ever batch
of a ready connection whose last segment is an adjacent duplicate of the
previous surviving text: the loop skips the final segment, `last_segment`
is never assigned, and the final `self.last_segment["start"]`
subscription raises TypeError.  Second, a two-segment batch arriving
before SERVER_READY: the `server_backend` attribute does not exist yet,
so the first surviving non-last segment raises AttributeError inside the
loop. -/
theorem c1_counterexample :
    process_segments { st0 with server_backend := some "whisper" } batchDupLast 7
        = none ∧
    process_segments st0 batchHello 7 = none := by
  constructor <;> decide

/-- C1 amended: for every non-empty batch whose final segment survives
adjacent-duplicate suppression (its text differs from the last surviving
text of the earlier part of the batch), handled by a connection whose
`server_backend` attribute has been assigned (a SERVER_READY was
handled) — or with a single-segment batch, which never reaches the
backend test — exactly one `latest` event is put on the queue, even when
zero segments qualify for finalization, and it carries the text and
start-derived timestamp of that final segment, which is then the batch's
last surviving segment.  (When the final segment is an adjacent
duplicate the code instead re-emits the connection's previous
`last_segment` or raises, and when `server_backend` is unset a batch of
two or more segments raises AttributeError, as the counterexample
shows.) -/
theorem c1_latest_event (st : ClientState) (segs : List Segment)
    (lastSeg : Segment) (now : Rat)
    (hlast : segs.getLast? = some lastSeg)
    (hsurv : (dedupTexts segs.dropLast).getLast? ≠ some lastSeg.text)
    (hready : (∃ bk, st.server_backend = some bk) ∨ segs.length = 1) :
    ∃ st2 evs, process_segments st segs now = some (st2, evs) ∧
      (evs.filter (fun e => e.event == "latest")).length = 1 ∧
      evs.getLast?
        = some ⟨"latest", st.client_start + lastSeg.start, lastSeg.text⟩ := by
  have hne : segs ≠ [] := by
    intro h
    rw [h] at hlast
    cases hlast
  have hgl : segs.getLast hne = lastSeg := by
    have h1 := List.getLast?_eq_getLast segs hne
    rw [h1] at hlast
    exact Option.some.inj hlast
  have hdecomp : segs.dropLast ++ [lastSeg] = segs := by
    rw [← hgl]
    exact List.dropLast_append_getLast hne
  have hlen : segs.dropLast.length = segs.length - 1 := List.length_dropLast segs
  set s0 : LoopSt :=
    { text := [], last_segment := st.last_segment,
      transcript := st.transcript, events := [] } with hs0
  have hpre : ∃ sp,
      segLoop segs.length st.client_start st.server_backend 0 segs.dropLast s0
        = some sp := by
    rcases hready with ⟨bk, hbk⟩ | hlen1
    · rw [hbk]
      exact segLoop_some_of_backend segs.length st.client_start bk
        segs.dropLast 0 s0
    · have hdl : segs.dropLast = [] := by
        have h0 : segs.dropLast.length = 0 := by rw [hlen, hlen1]
        exact List.length_eq_zero.mp h0
      rw [hdl]
      exact ⟨s0, rfl⟩
  obtain ⟨sPre, hpre⟩ := hpre
  have htext : sPre.text = dedupTexts segs.dropLast := by
    rw [segLoop_text segs.length st.client_start st.server_backend
      segs.dropLast 0 s0 sPre hpre]
    rfl
  have hloop :
      segLoop segs.length st.client_start st.server_backend 0 segs s0
        = some { sPre with text := sPre.text ++ [lastSeg.text],
                           last_segment := some lastSeg } := by
    have hsplit := segLoop_concat_some segs.length st.client_start
      st.server_backend segs.dropLast lastSeg 0 s0 sPre hpre
    rw [hdecomp, Nat.zero_add, hlen] at hsplit
    rw [hsplit, segStep_last _ _ _ _ _ _ (htext ▸ hsurv) rfl]
  have hevseg : ∀ e ∈ sPre.events, e.event = "segment" := by
    intro e he
    rcases segLoop_events segs.length st.client_start st.server_backend
      segs.dropLast 0 s0 sPre hpre e he with h | h
    · rw [hs0] at h
      cases h
    · exact h
  refine ⟨{ st with
      transcript := sPre.transcript
      last_segment := some lastSeg
      last_received_segment :=
        if st.last_received_segment = none ∨
            st.last_received_segment ≠ some lastSeg.text
        then some lastSeg.text else st.last_received_segment
      last_response_received :=
        if st.last_received_segment = none ∨
            st.last_received_segment ≠ some lastSeg.text
        then some now else st.last_response_received },
    sPre.events ++ [⟨"latest", st.client_start + lastSeg.start, lastSeg.text⟩],
    ?_, ?_, ?_⟩
  · unfold process_segments
    rw [hloop]
    dsimp only
    rw [hlast]
  · rw [List.filter_append]
    have hnil : (sPre.events.filter (fun e => e.event == "latest")) = [] := by
      rw [List.filter_eq_nil_iff]
      intro e he
      rw [hevseg e he]
      decide
    rw [hnil]
    rfl
  · exact List.getLast?_concat _

theorem c1_witness :
    batchHello.getLast? = some (⟨"world", 1, 2⟩ : Segment) ∧
    (dedupTexts batchHello.dropLast).getLast?
      ≠ some (⟨"world", 1, 2⟩ : Segment).text ∧
    ((∃ bk, stReady.server_backend = some bk) ∨ batchHello.length = 1) ∧
    ∃ st2 evs, process_segments stReady batchHello 9 = some (st2, evs) ∧
      (evs.filter (fun e => e.event == "latest")).length = 1 ∧
      evs.getLast?
        = some ⟨"latest",
            stReady.client_start + (⟨"world", 1, 2⟩ : Segment).start,
            (⟨"world", 1, 2⟩ : Segment).text⟩ :=
  ⟨by decide, by decide, Or.inl ⟨"faster_whisper", rfl⟩,
    c1_latest_event stReady batchHello ⟨"world", 1, 2⟩ 9 (by decide) (by decide)
      (Or.inl ⟨"faster_whisper", rfl⟩)⟩
